import Mathlib

/-!
Shallow embedding of the CardiacStrain motion/analysis engine
(`src/utils/motion.ts`, `src/App.tsx`, and the source variants
`src/unnamed/part_002`, `src/unnamed/part_005`, `src/unnamed/part_006`).

Machine numbers: canvas pixel samples are 8-bit integers (`ℕ`, ≤ 255);
pixel coordinates and areas are modelled over `ℚ` (JS numbers are floats,
but every operation exercised by the claims below — additions,
subtractions, multiplications, divisions, comparisons, `Math.floor`,
`Math.abs` — is exact on the rational inputs the claims use).
`Math.sqrt` (used only to turn point displacements into scalar distances)
is not exactly representable; the strain formula is therefore modelled as
a function of the two already-computed distances, which is how the source
itself structures the computation (`distInitial` / `distCurrent` consts).
-/

/-- `Vector2` of `src/types.ts`: a continuous 2D coordinate. -/
structure Vec2 where
  x : ℚ
  y : ℚ
deriving DecidableEq, Repr

/-- One sample of the per-view strain history.
`src/App.tsx:103`: `{ time: video.currentTime, strain: avgStrain }`. -/
structure StrainSample where
  time : ℚ
  strain : ℚ
deriving DecidableEq, Repr

/-- ROI rectangle `{x, y, w, h}` (`src/App.tsx:22`). -/
structure Roi where
  x : ℚ
  y : ℚ
  w : ℚ
  h : ℚ
deriving DecidableEq, Repr

/-- The per-view analysis state of `src/App.tsx:20-28` (`vData` entries),
restricted to the fields the analysis logic reads or writes.  JS
initialises `minArea` to `Infinity`; all claims below only constrain
states whose `minArea` has been overwritten by an observed (finite) area,
so `ℚ` suffices. -/
structure ViewState where
  ef : ℚ
  maxArea : ℚ
  minArea : ℚ
  history : List StrainSample
  roi : Option Roi
  isProcessed : Bool
deriving DecidableEq, Repr

/-- The aggregate result emitted once per completed biplane batch
(`src/App.tsx:145-152`), restricted to the deterministic fields
(`timestamp` and the randomised `segments` are environment effects). -/
structure AnalysisResult where
  biplaneEf : ℚ
  a4c : ViewState
  a2c : ViewState
  hr : ℚ
deriving DecidableEq, Repr

/-! ## Strain formula (`src/App.tsx:81-88`, `src/unnamed/part_002:94-102`) -/

/-- JS `(distInitial || 1)`: `0` is the only falsy value a nonnegative
distance can take. -/
def strainDenom (distInitial : ℚ) : ℚ :=
  if distInitial = 0 then 1 else distInitial

/-- `src/App.tsx:86` (identical in `src/unnamed/part_002:100`):
`localStrain = ((distCurrent - (distInitial || 1)) / (distInitial || 1)) * -100`. -/
def localStrain (distInitial distCurrent : ℚ) : ℚ :=
  ((distCurrent - strainDenom distInitial) / strainDenom distInitial) * (-100)

/-- Reference center for the strain distances (`src/App.tsx:83`):
ROI center if an ROI is set, else the frame center `(300, 225)`. -/
def referenceCenter (roi : Option Roi) : Vec2 :=
  match roi with
  | some r => ⟨r.x + r.w / 2, r.y + r.h / 2⟩
  | none => ⟨300, 225⟩

/-! ## Ejection-fraction formulas -/

/-- Per-view EF as computed by the biplane batch (`src/App.tsx:134`):
`maxArea > 0 ? ((maxArea - minArea) / maxArea) * 100 : 0`. -/
def efPlanar (maxArea minArea : ℚ) : ℚ :=
  if 0 < maxArea then ((maxArea - minArea) / maxArea) * 100 else 0

/-- `Math.max(20, Math.min(85, x))` (`src/unnamed/part_002:164`). -/
def clamp2085 (x : ℚ) : ℚ :=
  max 20 (min 85 x)

/-- EF proxy of the single-view variant's `runAnalysis`
(`src/unnamed/part_002:159-165`): `calculatedFevi` is the fractional area
change when `maxObservedArea > 0`, else the placeholder `55`; the reported
`ef`/`fevi` is its clamp to `[20, 85]`. -/
def runAnalysisEf (maxObservedArea minObservedArea : ℚ) : ℚ :=
  clamp2085 (if 0 < maxObservedArea
    then ((maxObservedArea - minObservedArea) / maxObservedArea) * 100
    else 55)

/-! ## Bounded strain history (`src/App.tsx:103`, `src/unnamed/part_002:111`) -/

/-- `[...history, sample].slice(-100)`: append, then keep the last 100
(`Array.slice(-100)` returns the whole array when it is shorter). -/
def pushHistory (h : List StrainSample) (s : StrainSample) : List StrainSample :=
  let l := h ++ [s]
  l.drop (l.length - 100)

/-! ## Biplane batch orchestration (`src/App.tsx:110-156`) -/

/-- End-of-view update of `runBiplaneAnalysis` (`src/App.tsx:129-136`):
mark the view processed and freeze its (unclamped) planar EF. -/
def finishView (v : ViewState) : ViewState :=
  { v with isProcessed := true, ef := efPlanar v.maxArea v.minArea }

/-- Final biplane aggregation (`src/App.tsx:140-152`):
`biplaneEf = (efA4c + efA2c) / 2`, `hr: 74`. -/
def mkAnalysisResult (a4c a2c : ViewState) : AnalysisResult :=
  { biplaneEf := (a4c.ef + a2c.ef) / 2, a4c := a4c, a2c := a2c, hr := 74 }

/-- The biplane batch (`src/App.tsx:110-156`).  `tick` abstracts the
frame-stepped `while` loop over one view's video (repeated `processFrame`
calls, which update points/areas/history but never `ef`, `isProcessed` or
`roi`); `hasVideo*` models `videoRefs[view].current` being non-null.
A view without a video or without an ROI is skipped by
`if (!video || !vData[view].roi) continue;` (`src/App.tsx:116`), and the
final result is emitted unconditionally. -/
def runBiplaneAnalysis (tick : ViewState → ViewState)
    (hasVideoA4c hasVideoA2c : Bool) (a4c a2c : ViewState) :
    (ViewState × ViewState) × AnalysisResult :=
  let a4c' := if hasVideoA4c && a4c.roi.isSome then finishView (tick a4c) else a4c
  let a2c' := if hasVideoA2c && a2c.roi.isSome then finishView (tick a2c) else a2c
  ((a4c', a2c'), mkAnalysisResult a4c' a2c')

/-- The batch-start button guard (`src/App.tsx:209`):
`disabled={isProcessing || !vData.a4c.roi || !vData.a2c.roi}`. -/
def startDisabled (isProcessing : Bool) (roiA4c roiA2c : Option Roi) : Bool :=
  isProcessing || roiA4c.isNone || roiA2c.isNone

/-! ## Contrast enhancement (`src/utils/motion.ts:4-16`, identical in
`src/unnamed/part_005:6-18`)

`enhanceContrast` reads only channel 0 of each RGBA pixel (stride-4
index `i`) and writes the stretched value back into channels 0,1,2.  The
model carries the channel-0 samples as a `List ℕ`.  Writes into a
`Uint8ClampedArray` clamp to `[0,255]` and round half-to-even
(ECMAScript `ToUint8Clamp`), which `toClamped` reproduces. -/

/-- ECMAScript `ToUint8Clamp` on an exact rational. -/
def toClamped (q : ℚ) : ℕ :=
  if q ≤ 0 then 0
  else if 255 ≤ q then 255
  else
    let f := ⌊q⌋
    if q - f < 1 / 2 then f.toNat
    else if 1 / 2 < q - f then (f + 1).toNat
    else if 2 ∣ f then f.toNat else (f + 1).toNat

/-- First loop of `enhanceContrast`: running minimum, seeded with 255
(`let min = 255` then `if (v < min) min = v`). -/
def minObserved (data : List ℕ) : ℕ :=
  data.foldl min 255

/-- First loop of `enhanceContrast`: running maximum, seeded with 0. -/
def maxObserved (data : List ℕ) : ℕ :=
  data.foldl max 0

/-- `const range = max - min || 1` (`src/utils/motion.ts:11`). -/
def rangeObserved (data : List ℕ) : ℤ :=
  let d : ℤ := (maxObserved data : ℤ) - (minObserved data : ℤ)
  if d = 0 then 1 else d

/-- Second loop of `enhanceContrast` (`src/utils/motion.ts:12-15`):
every sample `v` is replaced by `((v - min) / range) * 255`, stored
clamped-and-rounded. -/
def enhanceContrast (data : List ℕ) : List ℕ :=
  data.map fun v : ℕ =>
    toClamped ((((v : ℚ) - (minObserved data : ℚ)) / (rangeObserved data : ℚ)) * 255)

/-! ## Block-matching tracker (`src/utils/motion.ts:126-168`)

A canvas is modelled as a `Raster`: its dimensions plus a total pixel
function (channel 0 of the RGBA data; after `enhanceContrast` all three
color channels are equal and the tracker reads only channel 0,
`src/utils/motion.ts:157`).  `getImageData(x, y, w, h).data` at stride-4
index `4*j` is the pixel at `(x + j % w, y + j / w)`; the SAD loop of
`trackSpeckle` visits exactly `j = 0, …, blockSize² - 1`.

The App invokes `trackSpeckle` with even `blockSize`/`searchWindow`
(14/28 at `src/App.tsx:82`, defaults 14/24 at `src/utils/motion.ts:130`),
so `halfBlock` and `halfSearch` are the exact natural halves used below;
claims are stated under the corresponding parity hypotheses. -/

/-- A raster: canvas dimensions plus the channel-0 pixel value at each
coordinate. -/
structure Raster where
  width : ℕ
  height : ℕ
  pix : ℤ → ℤ → ℤ

/-- Sum of absolute differences (`src/utils/motion.ts:155-158`) between
the template block of `prev` at `(tx, ty)` and the candidate block of
`curr` at `(cx, cy)`, both of size `bs × bs`. -/
def sadAt (prev curr : Raster) (bs : ℕ) (tx ty cx cy : ℤ) : ℕ :=
  ((List.range (bs * bs)).map fun j =>
    (prev.pix (tx + (j % bs : ℕ)) (ty + (j / bs : ℕ)) -
     curr.pix (cx + (j % bs : ℕ)) (cy + (j / bs : ℕ))).natAbs).sum

/-- Loop offsets `-halfSearch, -halfSearch + 2, …, halfSearch`
(`for (let dy = -halfSearch; dy <= halfSearch; dy += 2)`). -/
def searchOffsets (halfSearch : ℕ) : List ℤ :=
  (List.range (halfSearch + 1)).map fun k : ℕ => -(halfSearch : ℤ) + 2 * (k : ℤ)

/-- The nested scan order: `dy` outer, `dx` inner
(`src/utils/motion.ts:147-148`); each element is `(dy, dx)`. -/
def scanPairs (halfSearch : ℕ) : List (ℤ × ℤ) :=
  (searchOffsets halfSearch).flatMap fun dy =>
    (searchOffsets halfSearch).map fun dx => (dy, dx)

/-- The candidate-block skip condition (`src/utils/motion.ts:152`):
`cx < 0 || cy < 0 || cx + blockSize > width || cy + blockSize > height`. -/
def candidateOut (curr : Raster) (bs : ℕ) (cx cy : ℤ) : Prop :=
  cx < 0 ∨ cy < 0 ∨ (curr.width : ℤ) < cx + (bs : ℤ) ∨ (curr.height : ℤ) < cy + (bs : ℤ)

instance (curr : Raster) (bs : ℕ) (cx cy : ℤ) : Decidable (candidateOut curr bs cx cy) := by
  unfold candidateOut
  infer_instance

/-- The template bail-out condition (`src/utils/motion.ts:138-139`):
`px - halfBlock < 0 || py - halfBlock < 0 || px + halfBlock >= width || py + halfBlock >= height`
(checked against the current canvas dimensions). -/
def templateOut (curr : Raster) (px py hb : ℤ) : Prop :=
  px - hb < 0 ∨ py - hb < 0 ∨ (curr.width : ℤ) ≤ px + hb ∨ (curr.height : ℤ) ≤ py + hb

instance (curr : Raster) (px py hb : ℤ) : Decidable (templateOut curr px py hb) := by
  unfold templateOut
  infer_instance

/-- One iteration of the candidate loop body
(`src/utils/motion.ts:149-164`).  The accumulator carries
`bestOffset` (as `(x, y)`, initially `(0, 0)`) and `minSAD`
(`none` models the initial `Infinity`: any finite SAD beats it). -/
def trackStep (prev curr : Raster) (bs : ℕ) (px py hb : ℤ)
    (acc : (ℤ × ℤ) × Option ℕ) (o : ℤ × ℤ) : (ℤ × ℤ) × Option ℕ :=
  let cx := px + o.2 - hb
  let cy := py + o.1 - hb
  if candidateOut curr bs cx cy then acc
  else
    let sad := sadAt prev curr bs (px - hb) (py - hb) cx cy
    match acc.2 with
    | none => ((o.2, o.1), some sad)
    | some m => if sad < m then ((o.2, o.1), some sad) else acc

/-- The whole candidate scan (`src/utils/motion.ts:144-165`): fold the
loop body over the scan order, starting from `bestOffset = {x: 0, y: 0}`
and `minSAD = Infinity`, and keep the final `bestOffset`. -/
def bestOffset (prev curr : Raster) (bs : ℕ) (px py hb : ℤ) (hs : ℕ) : ℤ × ℤ :=
  ((scanPairs hs).foldl (trackStep prev curr bs px py hb) ((0, 0), none)).1

/-- `trackSpeckle` (`src/utils/motion.ts:126-168`): floor the point,
bail out unchanged if the template block would cross the raster bounds
(`src/utils/motion.ts:138-141`), otherwise scan the sub-sampled search
window for the minimal-SAD offset (strict `sad < minSAD`, so the first
scanned offset wins ties) and return `point + bestOffset`. -/
def trackSpeckle (prev curr : Raster) (point : Vec2) (bs sw : ℕ) : Vec2 :=
  let hb : ℤ := (bs / 2 : ℕ)
  let hs : ℕ := sw / 2
  let px : ℤ := ⌊point.x⌋
  let py : ℤ := ⌊point.y⌋
  if templateOut curr px py hb then point
  else
    let best := bestOffset prev curr bs px py hb hs
    ⟨point.x + best.1, point.y + best.2⟩

/-! ## Polygon area (`src/utils/motion.ts:18-32`)

`calculateArea` sorts the points by `Math.atan2(y - centerY, x - centerX)`
ascending and applies the Shoelace formula.  `Math.atan2` itself is a
float; what the comparator consumes is only the ORDER of the `atan2`
values, which for vectors with exact rational components is decidable:
`atan2 : (y, x) ↦ angle ∈ (-π, π]` is determined up to order by which of
the eight axis/quadrant sectors (ascending: third quadrant, negative
y-axis, fourth quadrant, positive x-axis (also the origin, `atan2(0,0)=0`),
first quadrant, positive y-axis, second quadrant, negative x-axis) the
vector lies in, and within one sector (an open region of angular width
< π) by the sign of the cross product.  `angLt p q` decides
`atan2(p.y, p.x) < atan2(q.y, q.x)` exactly. -/

/-- Index of the sector of `(-π, π]` holding `atan2 y x`, in ascending
angular order. -/
def atan2Sector (y x : ℚ) : ℕ :=
  if y < 0 then (if x < 0 then 0 else if x = 0 then 1 else 2)
  else if y = 0 then (if x < 0 then 7 else 3)
  else if 0 < x then 4 else if x = 0 then 5 else 6

/-- Decides `atan2(p.2, p.1) < atan2(q.2, q.1)` (vectors as `(x, y)`). -/
def angLt (p q : ℚ × ℚ) : Bool :=
  let cp := atan2Sector p.2 p.1
  let cq := atan2Sector q.2 q.1
  if cp = cq then decide (0 < p.1 * q.2 - p.2 * q.1) else decide (cp < cq)

/-- The sort comparator of `src/utils/motion.ts:22-24` as a strict order:
`Math.atan2(a.y - centerY, a.x - centerX) < Math.atan2(b.y - centerY, b.x - centerX)`. -/
def angKeyLt (cx cy : ℚ) (a b : Vec2) : Bool :=
  angLt (a.x - cx, a.y - cy) (b.x - cx, b.y - cy)

/-- Stable insertion w.r.t. the strict comparator: a later element is
placed after every earlier element it does not strictly precede, matching
the stable ascending semantics of `Array.prototype.sort`. -/
def insertByAngle (cx cy : ℚ) (a : Vec2) : List Vec2 → List Vec2
  | [] => [a]
  | b :: l => if angKeyLt cx cy b a then b :: insertByAngle cx cy a l else a :: b :: l

/-- `[...points].sort(comparator)` (`src/utils/motion.ts:22`). -/
def sortByAngle (cx cy : ℚ) (l : List Vec2) : List Vec2 :=
  l.foldr (insertByAngle cx cy) []

/-- `calculateArea` (`src/utils/motion.ts:18-32`): fewer than 3 points
yield 0; otherwise sort by angle around the centroid and take
`|Σ (xᵢ·yᵢ₊₁ − xᵢ₊₁·yᵢ)| / 2` with cyclic indexing `(i + 1) % n`. -/
def calculateArea (points : List Vec2) : ℚ :=
  if points.length < 3 then 0
  else
    let cx := (points.foldl (fun acc b => acc + b.x) 0) / (points.length : ℚ)
    let cy := (points.foldl (fun acc b => acc + b.y) 0) / (points.length : ℚ)
    let sorted := sortByAngle cx cy points
    let n := sorted.length
    let s := (List.range n).foldl (fun acc i =>
      acc + (sorted.getD i ⟨0, 0⟩).x * (sorted.getD ((i + 1) % n) ⟨0, 0⟩).y
          - (sorted.getD ((i + 1) % n) ⟨0, 0⟩).x * (sorted.getD i ⟨0, 0⟩).y) 0
    |s| / 2

/-! ## Concrete session states used by the batch-orchestration claims -/

/-- A demonstration ROI rectangle. -/
def roiDemo : Roi := ⟨100, 100, 200, 200⟩

/-- A view whose ROI was never drawn (all metrics at their defaults). -/
def viewNoRoi : ViewState := ⟨0, 0, 0, [], none, false⟩

/-- A view with an ROI, before the batch runs. -/
def viewWithRoi : ViewState := ⟨0, 0, 0, [], some roiDemo, false⟩

/-- A stand-in for one view's frame-stepped tracking loop: it leaves
area extrema `maxArea = 100`, `minArea = 40` (so the frozen planar EF is
60). -/
def tickDemo : ViewState → ViewState :=
  fun v => { v with maxArea := 100, minArea := 40 }

/-! # Claim theorems -/

/-- C1, counterexample: the biplane per-view EF of `src/App.tsx:134` is
NOT clamped to `[20, 85]` and falls back to 0 (not 55) when
`maxArea = 0`: at `maxArea = 100, minArea = 0` it reports 100, not 85. -/
theorem efPlanar_not_clamped_cex :
    efPlanar 100 0 = 100 ∧ (100 : ℚ) ≠ 85 ∧ efPlanar 0 3 = 0 ∧ (0 : ℚ) ≠ 55 := by
  refine ⟨?_, by norm_num, ?_, by norm_num⟩ <;> norm_num [efPlanar]

/-- C1, amended: the single-view `runAnalysis` EF proxy
(`src/unnamed/part_002:159-165`) is the claimed clamped formula — it
clamps `(maxArea − minArea) / maxArea * 100` to `[20, 85]` (yielding 20
at `(100, 99)` and 85 at `(100, 0)`) and reports the placeholder 55 when
`maxArea` is not positive — while the biplane per-view EF
(`src/App.tsx:134`) reports the same ratio unclamped and falls back to 0
when `maxArea` is not positive. -/
theorem ef_proxy_amended (maxA minA : ℚ) :
    (0 < maxA →
      runAnalysisEf maxA minA = clamp2085 (((maxA - minA) / maxA) * 100) ∧
      20 ≤ runAnalysisEf maxA minA ∧ runAnalysisEf maxA minA ≤ 85 ∧
      efPlanar maxA minA = ((maxA - minA) / maxA) * 100) ∧
    (¬ 0 < maxA → runAnalysisEf maxA minA = 55 ∧ efPlanar maxA minA = 0) ∧
    runAnalysisEf 100 99 = 20 ∧ runAnalysisEf 100 0 = 85 := by
  refine ⟨fun h => ⟨?_, ?_, ?_, ?_⟩, fun h => ⟨?_, ?_⟩, ?_, ?_⟩
  · rw [runAnalysisEf, if_pos h]
  · exact le_max_left 20 _
  · exact max_le (by norm_num) (min_le_left 85 _)
  · rw [efPlanar, if_pos h]
  · rw [runAnalysisEf, if_neg h, clamp2085]; norm_num
  · rw [efPlanar, if_neg h]
  · norm_num [runAnalysisEf, clamp2085]
  · norm_num [runAnalysisEf, clamp2085]

/-- C1, witness for `ef_proxy_amended` at `maxArea = 100, minArea = 40`. -/
theorem ef_proxy_amended_witness :
    0 < (100 : ℚ) ∧ runAnalysisEf 100 40 = clamp2085 (((100 - 40) / 100) * 100) :=
  ⟨by norm_num, ((ef_proxy_amended 100 40).1 (by norm_num)).1⟩

/-- C2, counterexample: with `distInitial = 2` and `distCurrent = 3`
(realised e.g. by `center = (300, 225)`, `initial = (302, 225)`,
`current = (303, 225)`, a point moving away from the center), the code
assigns strain `-50`, not the claimed
`(distCurrent - distInitial) / (distInitial || 1) * 100 = 50`. -/
theorem localStrain_sign_cex :
    localStrain 2 3 = -50 ∧ ((3 : ℚ) - 2) / 2 * 100 = 50 ∧
    localStrain 2 3 ≠ ((3 : ℚ) - 2) / 2 * 100 := by
  norm_num [localStrain, strainDenom]

/-- C2, amended: the strain assigned after tracking is
`(distCurrent − (distInitial || 1)) / (distInitial || 1) * (−100)` —
for `distInitial ≠ 0` the NEGATION of the claimed formula — so the sign
convention is inverted: negative means moving away from the reference
center (lengthening), positive means approaching it (shortening). -/
theorem localStrain_amended (dI dC : ℚ) :
    (dI ≠ 0 → localStrain dI dC = -(((dC - dI) / dI) * 100)) ∧
    (dI = 0 → localStrain dI dC = (dC - 1) * (-100)) ∧
    (0 < dI →
      (dI < dC → localStrain dI dC < 0) ∧ (dC < dI → 0 < localStrain dI dC)) := by
  refine ⟨fun h => ?_, fun h => ?_, fun h => ⟨fun hlt => ?_, fun hlt => ?_⟩⟩
  · rw [localStrain, strainDenom, if_neg h]; ring
  · rw [localStrain, strainDenom, if_pos h]; ring
  · rw [localStrain, strainDenom, if_neg (ne_of_gt h)]
    exact mul_neg_of_pos_of_neg (div_pos (by linarith) h) (by norm_num)
  · rw [localStrain, strainDenom, if_neg (ne_of_gt h)]
    exact mul_pos_of_neg_of_neg (div_neg_of_neg_of_pos (by linarith) h) (by norm_num)

/-- C2, witness for `localStrain_amended` at `distInitial = 2`,
`distCurrent = 3`. -/
theorem localStrain_amended_witness :
    (2 : ℚ) ≠ 0 ∧ localStrain 2 3 = -(((3 - 2) / 2) * 100) :=
  ⟨by norm_num, (localStrain_amended 2 3).1 (by norm_num)⟩

/-- C9: the biplane EF emitted after both views complete is the
arithmetic mean of the two per-view EFs (`src/App.tsx:141-151`); in
particular per-view EFs 60 and 50 yield exactly 55. -/
theorem biplaneEf_mean :
    (∀ v4 v2 : ViewState, (mkAnalysisResult v4 v2).biplaneEf = (v4.ef + v2.ef) / 2) ∧
    (mkAnalysisResult ⟨60, 0, 0, [], none, true⟩ ⟨50, 0, 0, [], none, true⟩).biplaneEf = 55 := by
  exact ⟨fun v4 v2 => rfl, by norm_num [mkAnalysisResult]⟩

/-- C5, counterexample: starting the batch with the A4C view missing its
ROI does NOT surface an error — `runBiplaneAnalysis` skips the view
(`continue`, `src/App.tsx:116`), leaves its metrics untouched, and still
emits a normal `AnalysisResult` whose biplane EF silently averages the
skipped view's default EF 0 with the other view's 60, reporting the
degraded value 30. -/
theorem runBiplane_silent_skip_cex :
    (runBiplaneAnalysis tickDemo true true viewNoRoi viewWithRoi).1.1 = viewNoRoi ∧
    (runBiplaneAnalysis tickDemo true true viewNoRoi viewWithRoi).2.biplaneEf = 30 ∧
    (runBiplaneAnalysis tickDemo true true viewNoRoi viewWithRoi).2 =
      mkAnalysisResult viewNoRoi
        ((runBiplaneAnalysis tickDemo true true viewNoRoi viewWithRoi).1.2) := by
  refine ⟨rfl, ?_, rfl⟩
  show ((viewNoRoi.ef + (finishView (tickDemo viewWithRoi)).ef) / 2) = 30
  norm_num [viewNoRoi, viewWithRoi, tickDemo, finishView, efPlanar]

/-- C5, amended: whichever view is missing its ROI at batch start —
A4C or A2C — that view is skipped with its metrics left at their prior
values (whether or not its video is present), no error is raised — the
batch unconditionally emits the `AnalysisResult`, averaging in the
skipped view's stale EF — and the only surfacing of the precondition is
the UI disabling the batch-start button while either ROI is missing
(`src/App.tsx:209`). -/
theorem runBiplane_skip_amended (tick : ViewState → ViewState) (hv4 hv2 : Bool)
    (a4c a2c : ViewState) :
    (a4c.roi = none →
      (runBiplaneAnalysis tick hv4 hv2 a4c a2c).1.1 = a4c ∧
      (runBiplaneAnalysis tick hv4 hv2 a4c a2c).2.biplaneEf =
        (a4c.ef + (runBiplaneAnalysis tick hv4 hv2 a4c a2c).1.2.ef) / 2 ∧
      startDisabled false a4c.roi a2c.roi = true) ∧
    (a2c.roi = none →
      (runBiplaneAnalysis tick hv4 hv2 a4c a2c).1.2 = a2c ∧
      (runBiplaneAnalysis tick hv4 hv2 a4c a2c).2.biplaneEf =
        ((runBiplaneAnalysis tick hv4 hv2 a4c a2c).1.1.ef + a2c.ef) / 2 ∧
      startDisabled false a4c.roi a2c.roi = true) := by
  constructor <;> intro h <;> refine ⟨?_, ?_, ?_⟩ <;>
    simp [runBiplaneAnalysis, mkAnalysisResult, startDisabled, h]

/-- C5, witness for `runBiplane_skip_amended`, exercising both cases:
the A4C view missing its ROI (with A2C's present), and the A2C view
missing its ROI (with A4C's present). -/
theorem runBiplane_skip_amended_witness :
    viewNoRoi.roi = none ∧
    (runBiplaneAnalysis tickDemo true true viewNoRoi viewWithRoi).1.1 = viewNoRoi ∧
    (runBiplaneAnalysis tickDemo true true viewWithRoi viewNoRoi).1.2 = viewNoRoi :=
  ⟨rfl,
   ((runBiplane_skip_amended tickDemo true true viewNoRoi viewWithRoi).1 rfl).1,
   ((runBiplane_skip_amended tickDemo true true viewWithRoi viewNoRoi).2 rfl).1⟩

/-- Folding any sequence of appends through `pushHistory` keeps exactly
the suffix of the last 100 samples. -/
theorem foldl_pushHistory (ss : List StrainSample) :
    List.foldl pushHistory [] ss = ss.drop (ss.length - 100) := by
  induction ss using List.reverseRecOn with
  | nil => rfl
  | append_singleton ss s ih =>
    rw [List.foldl_append]
    show pushHistory (List.foldl pushHistory [] ss) s = _
    rw [ih, pushHistory]
    simp only [List.length_append, List.length_drop, List.length_singleton]
    by_cases hn : ss.length < 100
    · have h1 : ss.length - 100 = 0 := by omega
      rw [h1, List.drop_zero]
      have h2 : ss.length - 0 + 1 - 100 = 0 := by omega
      have h3 : ss.length + 1 - 100 = 0 := by omega
      rw [h2, h3]
    · have hlen : 1 ≤ (ss.drop (ss.length - 100)).length := by
        rw [List.length_drop]
        omega
      have h2 : ss.length - (ss.length - 100) + 1 - 100 = 1 := by omega
      rw [h2]
      rw [List.drop_append_of_le_length hlen, List.drop_drop]
      have h4 : ss.length + 1 - 100 ≤ ss.length := by omega
      rw [List.drop_append_of_le_length h4]
      have h5 : ss.length - 100 + 1 = ss.length + 1 - 100 := by omega
      rw [h5]

/-- C8: appending more than 100 samples one at a time through the
`.slice(-100)` update (`src/App.tsx:103`) retains exactly the most
recent 100 samples, in their original temporal order — the history is
the length-100 suffix of the appended sequence, i.e. the oldest samples
are discarded first. -/
theorem history_fifo (ss : List StrainSample) (h : 100 < ss.length) :
    List.foldl pushHistory [] ss = ss.drop (ss.length - 100) ∧
    (List.foldl pushHistory [] ss).length = 100 := by
  refine ⟨foldl_pushHistory ss, ?_⟩
  rw [foldl_pushHistory ss, List.length_drop]
  omega

/-- A concrete sequence of 101 appended samples. -/
def sampleSeq : List StrainSample :=
  (List.range 101).map fun i : ℕ => ⟨(i : ℚ), 0⟩

/-- Folding `min` over a list whose members all equal `c` gives
`min a c` (for a nonempty list). -/
theorem foldl_min_of_all_eq (l : List ℕ) (c : ℕ) (hall : ∀ v ∈ l, v = c) :
    ∀ a : ℕ, l ≠ [] → l.foldl min a = min a c := by
  induction l with
  | nil => intro a h; exact absurd rfl h
  | cons v t ih =>
    intro a _
    have hv : v = c := hall v (by simp)
    rw [List.foldl_cons]
    by_cases ht : t = []
    · subst ht hv; rfl
    · rw [ih (fun w hw => hall w (by simp [hw])) (min a v) ht, hv, min_assoc, min_self]

/-- Folding `max` over a list whose members all equal `c` gives
`max a c` (for a nonempty list). -/
theorem foldl_max_of_all_eq (l : List ℕ) (c : ℕ) (hall : ∀ v ∈ l, v = c) :
    ∀ a : ℕ, l ≠ [] → l.foldl max a = max a c := by
  induction l with
  | nil => intro a h; exact absurd rfl h
  | cons v t ih =>
    intro a _
    have hv : v = c := hall v (by simp)
    rw [List.foldl_cons]
    by_cases ht : t = []
    · subst ht hv; rfl
    · rw [ih (fun w hw => hall w (by simp [hw])) (max a v) ht, hv, max_assoc, max_self]

/-- C4, counterexample: on the uniform channel `[7, 7, 7]` the divisor
floor of 1 indeed avoids division by zero, but the output is `[0, 0, 0]`
— every sample is remapped to `(7 − 7) / 1 * 255 = 0` — not the uniform
input value 7 as claimed. -/
theorem enhanceContrast_uniform_cex :
    enhanceContrast [7, 7, 7] = [0, 0, 0] ∧ ([0, 0, 0] : List ℕ) ≠ [7, 7, 7] := by
  have h1 : minObserved [7, 7, 7] = 7 := by decide
  have h2 : rangeObserved [7, 7, 7] = 1 := by decide
  refine ⟨?_, by decide⟩
  rw [enhanceContrast, h1, h2]
  norm_num [toClamped]

/-- C4, amended: after `enhanceContrast`, with observed minimum `m` and
maximum `M`, every sample `v` is remapped to `(v − m) / (M − m || 1) * 255`:
when `M > m` a pixel holding `m` maps to exactly 0 and a pixel holding
`M` to exactly 255; when the channel is uniform the divisor floor of 1
avoids division by zero but every output sample is 0 (the uniform value
is NOT preserved unless it is 0). -/
theorem enhanceContrast_amended (data : List ℕ) :
    (minObserved data < maxObserved data →
      ∀ i, i < data.length →
        ((data.getD i 0 = minObserved data → (enhanceContrast data).getD i 0 = 0) ∧
         (data.getD i 0 = maxObserved data → (enhanceContrast data).getD i 0 = 255))) ∧
    (∀ c : ℕ, c ≤ 255 → (∀ v ∈ data, v = c) →
      enhanceContrast data = data.map fun _ => 0) := by
  constructor
  · intro hlt i hi
    have hi' : i < (enhanceContrast data).length := by
      simpa [enhanceContrast] using hi
    rw [List.getD_eq_getElem data 0 hi, List.getD_eq_getElem _ 0 hi']
    have hmap : (enhanceContrast data)[i] =
        toClamped ((((data[i] : ℕ) : ℚ) - (minObserved data : ℚ)) /
          (rangeObserved data : ℚ) * 255) := by
      simp [enhanceContrast]
    rw [hmap]
    constructor
    · intro hv
      rw [hv]
      simp [toClamped]
    · intro hv
      rw [hv]
      have hd : ((maxObserved data : ℤ) - (minObserved data : ℤ)) ≠ 0 := by
        omega
      have hr : rangeObserved data = (maxObserved data : ℤ) - (minObserved data : ℤ) := by
        rw [rangeObserved, if_neg hd]
      rw [hr]
      have hne : ((maxObserved data : ℚ) - (minObserved data : ℚ)) ≠ 0 := by
        have h1 : (minObserved data : ℚ) < (maxObserved data : ℚ) := by exact_mod_cast hlt
        exact sub_ne_zero_of_ne (ne_of_gt h1)
      have hcast : ((((maxObserved data : ℤ) - (minObserved data : ℤ)) : ℤ) : ℚ) =
          (maxObserved data : ℚ) - (minObserved data : ℚ) := by push_cast; ring
      rw [hcast, div_self hne, one_mul]
      norm_num [toClamped]
  · intro c hc hall
    by_cases hne : data = []
    · subst hne; rfl
    have hmin : minObserved data = c := by
      rw [minObserved, foldl_min_of_all_eq data c hall 255 hne, min_eq_right hc]
    have hmax : maxObserved data = c := by
      rw [maxObserved, foldl_max_of_all_eq data c hall 0 hne, max_eq_right (Nat.zero_le c)]
    have hr : rangeObserved data = 1 := by
      rw [rangeObserved, hmin, hmax]
      simp
    rw [enhanceContrast, hr, hmin]
    refine List.map_congr_left fun v hv => ?_
    rw [hall v hv]
    simp [toClamped]

/-- C4, witness for `enhanceContrast_amended` on `[3, 200]` (distinct
extremes) and `[7, 7]` (uniform). -/
theorem enhanceContrast_amended_witness :
    minObserved [3, 200] < maxObserved [3, 200] ∧
    (enhanceContrast [3, 200]).getD 0 0 = 0 ∧
    (enhanceContrast [3, 200]).getD 1 0 = 255 ∧
    enhanceContrast [7, 7] = [7, 7].map (fun _ => 0) :=
  ⟨by decide,
   ((enhanceContrast_amended [3, 200]).1 (by decide) 0 (by decide)).1 (by decide),
   ((enhanceContrast_amended [3, 200]).1 (by decide) 1 (by decide)).2 (by decide),
   (enhanceContrast_amended [7, 7]).2 7 (by decide) (by decide)⟩

/-- C8, witness for `history_fifo` on the 101-sample sequence. -/
theorem history_fifo_witness :
    100 < sampleSeq.length ∧
    List.foldl pushHistory [] sampleSeq = sampleSeq.drop (sampleSeq.length - 100) :=
  ⟨by rw [sampleSeq, List.length_map, List.length_range]; norm_num,
   (history_fifo sampleSeq
     (by rw [sampleSeq, List.length_map, List.length_range]; norm_num)).1⟩

/-! ## Tracker lemmas -/

/-- Every scanned offset is bounded by `halfSearch` in absolute value
and, when `halfSearch` is even, is even (`-halfSearch + 2k`). -/
theorem mem_searchOffsets {hs : ℕ} {d : ℤ} (hd : d ∈ searchOffsets hs) :
    d.natAbs ≤ hs ∧ (2 ∣ hs → 2 ∣ d) := by
  simp only [searchOffsets, List.mem_map, List.mem_range] at hd
  obtain ⟨k, hk, rfl⟩ := hd
  constructor
  · omega
  · intro h2
    omega

/-- A scanned pair consists of two scanned offsets. -/
theorem mem_scanPairs {hs : ℕ} {o : ℤ × ℤ} (ho : o ∈ scanPairs hs) :
    o.1 ∈ searchOffsets hs ∧ o.2 ∈ searchOffsets hs := by
  simp only [scanPairs, List.mem_flatMap, List.mem_map] at ho
  obtain ⟨dy, hdy, dx, hdx, rfl⟩ := ho
  exact ⟨hdy, hdx⟩

/-- One loop iteration either keeps `bestOffset` or replaces it with the
scanned offset. -/
theorem trackStep_fst (prev curr : Raster) (bs : ℕ) (px py hb : ℤ)
    (acc : (ℤ × ℤ) × Option ℕ) (o : ℤ × ℤ) :
    (trackStep prev curr bs px py hb acc o).1 = acc.1 ∨
    (trackStep prev curr bs px py hb acc o).1 = (o.2, o.1) := by
  rw [trackStep]
  by_cases hc : candidateOut curr bs (px + o.2 - hb) (py + o.1 - hb)
  · rw [if_pos hc]; left; rfl
  · rw [if_neg hc]
    rcases acc with ⟨b, m⟩
    cases m with
    | none => right; rfl
    | some m =>
      by_cases hlt : sadAt prev curr bs (px - hb) (py - hb) (px + o.2 - hb) (py + o.1 - hb) < m
      · right; simp [hlt]
      · left; simp [hlt]

/-- Any property of the `bestOffset` component that holds initially and
for every scanned offset is preserved by the whole candidate scan. -/
theorem foldl_trackStep_fst_inv (prev curr : Raster) (bs : ℕ) (px py hb : ℤ)
    (Q : ℤ × ℤ → Prop) :
    ∀ (l : List (ℤ × ℤ)) (acc : (ℤ × ℤ) × Option ℕ), Q acc.1 →
      (∀ o ∈ l, Q (o.2, o.1)) →
      Q ((l.foldl (trackStep prev curr bs px py hb) acc).1) := by
  intro l
  induction l with
  | nil => intro acc hacc _; exact hacc
  | cons o t ih =>
    intro acc hacc hl
    rw [List.foldl_cons]
    refine ih _ ?_ (fun w hw => hl w (by simp [hw]))
    rcases trackStep_fst prev curr bs px py hb acc o with h | h
    · rw [h]; exact hacc
    · rw [h]; exact hl o (by simp)

/-- The SAD of a block against itself is 0. -/
theorem sadAt_self (r : Raster) (bs : ℕ) (tx ty : ℤ) :
    sadAt r r bs tx ty tx ty = 0 := by
  simp [sadAt]

/-- Once the scan has recorded the zero offset with SAD 0, no later
candidate can displace it (the comparison is the strict `sad < minSAD`). -/
theorem foldl_trackStep_after_zero (prev curr : Raster) (bs : ℕ) (px py hb : ℤ) :
    ∀ l : List (ℤ × ℤ),
      l.foldl (trackStep prev curr bs px py hb) ((0, 0), some 0) = ((0, 0), some 0) := by
  intro l
  induction l with
  | nil => rfl
  | cons o t ih =>
    rw [List.foldl_cons]
    have hstep : trackStep prev curr bs px py hb ((0, 0), some 0) o = ((0, 0), some 0) := by
      rw [trackStep]
      by_cases hc : candidateOut curr bs (px + o.2 - hb) (py + o.1 - hb)
      · rw [if_pos hc]
      · rw [if_neg hc]
        simp
    rw [hstep]
    exact ih

/-- On identical rasters, if every in-bounds scanned offset other than
the zero offset has nonzero SAD, the scan ends at the zero offset with
SAD 0 (whatever the current accumulator, as long as its recorded
minimum, if any, is positive). -/
theorem foldl_trackStep_unique_zero (r : Raster) (bs : ℕ) (px py hb : ℤ)
    (hzero : ¬ candidateOut r bs (px - hb) (py - hb))
    (hself : sadAt r r bs (px - hb) (py - hb) (px - hb) (py - hb) = 0) :
    ∀ l : List (ℤ × ℤ), (0, 0) ∈ l →
      (∀ o ∈ l, o ≠ (0, 0) →
        ¬ candidateOut r bs (px + o.2 - hb) (py + o.1 - hb) →
        sadAt r r bs (px - hb) (py - hb) (px + o.2 - hb) (py + o.1 - hb) ≠ 0) →
      ∀ (b : ℤ × ℤ) (macc : Option ℕ),
        (macc = none ∨ ∃ m, macc = some m ∧ 0 < m) →
        l.foldl (trackStep r r bs px py hb) (b, macc) = ((0, 0), some 0) := by
  intro l
  induction l with
  | nil => intro h; exact absurd h (List.not_mem_nil _)
  | cons o t ih =>
    intro hz hl b macc hacc
    rw [List.foldl_cons]
    by_cases ho : o = (0, 0)
    · subst ho
      have hstep : trackStep r r bs px py hb (b, macc) (0, 0) = ((0, 0), some 0) := by
        rw [trackStep]
        simp only [show ((0, 0) : ℤ × ℤ).1 = 0 from rfl,
          show ((0, 0) : ℤ × ℤ).2 = 0 from rfl, add_zero]
        rw [if_neg hzero]
        cases macc with
        | none => rw [hself]
        | some m =>
          obtain hmpos : 0 < m := by
            rcases hacc with h | ⟨m', hm', hp⟩
            · exact absurd h (by simp)
            · simp only [Option.some.injEq] at hm'
              omega
          show (if sadAt r r bs (px - hb) (py - hb) (px - hb) (py - hb) < m then
            (((0 : ℤ), (0 : ℤ)), some (sadAt r r bs (px - hb) (py - hb) (px - hb) (py - hb)))
            else (b, some m)) = ((0, 0), some 0)
          rw [hself, if_pos hmpos]
      rw [hstep]
      exact foldl_trackStep_after_zero r r bs px py hb t
    · have hz' : (0, 0) ∈ t := by
        rcases List.mem_cons.mp hz with h | h
        · exact absurd h.symm ho
        · exact h
      have hl' : ∀ o ∈ t, o ≠ (0, 0) →
          ¬ candidateOut r bs (px + o.2 - hb) (py + o.1 - hb) →
          sadAt r r bs (px - hb) (py - hb) (px + o.2 - hb) (py + o.1 - hb) ≠ 0 :=
        fun w hw => hl w (by simp [hw])
      by_cases hc : candidateOut r bs (px + o.2 - hb) (py + o.1 - hb)
      · have hstep : trackStep r r bs px py hb (b, macc) o = (b, macc) := by
          rw [trackStep, if_pos hc]
        rw [hstep]
        exact ih hz' hl' b macc hacc
      · have hsad : sadAt r r bs (px - hb) (py - hb) (px + o.2 - hb) (py + o.1 - hb) ≠ 0 :=
          hl o (by simp) ho hc
        cases macc with
        | none =>
          have hstep : trackStep r r bs px py hb (b, none) o =
              ((o.2, o.1), some (sadAt r r bs (px - hb) (py - hb)
                (px + o.2 - hb) (py + o.1 - hb))) := by
            rw [trackStep, if_neg hc]
          rw [hstep]
          exact ih hz' hl' _ _ (Or.inr ⟨_, rfl, Nat.pos_of_ne_zero hsad⟩)
        | some m =>
          obtain hmpos : 0 < m := by
            rcases hacc with h | ⟨m', hm', hp⟩
            · exact absurd h (by simp)
            · simp only [Option.some.injEq] at hm'
              omega
          by_cases hlt : sadAt r r bs (px - hb) (py - hb) (px + o.2 - hb) (py + o.1 - hb) < m
          · have hstep : trackStep r r bs px py hb (b, some m) o =
                ((o.2, o.1), some (sadAt r r bs (px - hb) (py - hb)
                  (px + o.2 - hb) (py + o.1 - hb))) := by
              rw [trackStep, if_neg hc]
              show (if sadAt r r bs (px - hb) (py - hb) (px + o.2 - hb) (py + o.1 - hb) < m then
                ((o.2, o.1), some (sadAt r r bs (px - hb) (py - hb)
                  (px + o.2 - hb) (py + o.1 - hb)))
                else (b, some m)) = _
              rw [if_pos hlt]
            rw [hstep]
            exact ih hz' hl' _ _ (Or.inr ⟨_, rfl, Nat.pos_of_ne_zero hsad⟩)
          · have hstep : trackStep r r bs px py hb (b, some m) o = (b, some m) := by
              rw [trackStep, if_neg hc]
              show (if sadAt r r bs (px - hb) (py - hb) (px + o.2 - hb) (py + o.1 - hb) < m then
                ((o.2, o.1), some (sadAt r r bs (px - hb) (py - hb)
                  (px + o.2 - hb) (py + o.1 - hb)))
                else (b, some m)) = _
              rw [if_neg hlt]
            rw [hstep]
            exact ih hz' hl' _ _ (Or.inr ⟨m, rfl, hmpos⟩)

/-- The zero offset is scanned whenever `halfSearch` is even
(`k = halfSearch / 2` gives `-halfSearch + 2k = 0`). -/
theorem zero_mem_scanPairs (hs : ℕ) (h2 : 2 ∣ hs) : ((0, 0) : ℤ × ℤ) ∈ scanPairs hs := by
  have h0 : (0 : ℤ) ∈ searchOffsets hs := by
    simp only [searchOffsets, List.mem_map, List.mem_range]
    exact ⟨hs / 2, by omega, by omega⟩
  simp only [scanPairs, List.mem_flatMap, List.mem_map]
  exact ⟨0, h0, 0, h0, rfl⟩

/-- A plain 600×450 frame-sized raster. -/
def rasterDemo : Raster := ⟨600, 450, fun _ _ => 0⟩

/-- An 8×8 raster with pairwise-distinct pixel values, so each block
matches only itself. -/
def gradRaster : Raster := ⟨8, 8, fun x y => x + 10 * y⟩

/-- A 20×20 raster with every pixel 0, so every block matches every
other block exactly. -/
def uniformRaster : Raster := ⟨20, 20, fun _ _ => 0⟩

/-- C6: when the `blockSize × blockSize` template around the floored
point would cross the raster bounds (`src/utils/motion.ts:138-141`),
`trackSpeckle` is a no-op returning the point unchanged (the model is
total, so no error can be raised). -/
theorem trackSpeckle_oob (prev curr : Raster) (p : Vec2) (bs sw : ℕ)
    (h : templateOut curr ⌊p.x⌋ ⌊p.y⌋ ((bs / 2 : ℕ) : ℤ)) :
    trackSpeckle prev curr p bs sw = p := by
  rw [trackSpeckle]
  exact if_pos h

/-- C6, witness for `trackSpeckle_oob`: the point `(3, 100)` has
`3 < 14/2 = 7`, so its template crosses the left edge of the 600×450
frame. -/
theorem trackSpeckle_oob_witness :
    templateOut rasterDemo ⌊(3 : ℚ)⌋ ⌊(100 : ℚ)⌋ ((14 / 2 : ℕ) : ℤ) ∧
    trackSpeckle rasterDemo rasterDemo ⟨3, 100⟩ 14 24 = ⟨3, 100⟩ :=
  ⟨by norm_num [templateOut, rasterDemo],
   trackSpeckle_oob rasterDemo rasterDemo ⟨3, 100⟩ 14 24
     (by norm_num [templateOut, rasterDemo])⟩

/-- C10: for every pair of rasters and every point, `trackSpeckle`
returns the input displaced by at most `searchWindow / 2` in each
coordinate, and each displacement component is an even integer — under
the hypothesis `4 ∣ searchWindow`, which every call site satisfies
(defaults 24 and 32, and 28 at `src/App.tsx:82`): the scanned offsets
`-halfSearch + 2k ≤ halfSearch` are then even, and the initial
`bestOffset` `(0, 0)` also satisfies both bounds. -/
theorem trackSpeckle_displacement (prev curr : Raster) (p : Vec2) (bs sw : ℕ)
    (hsw : 4 ∣ sw) :
    ∃ dx dy : ℤ,
      trackSpeckle prev curr p bs sw = ⟨p.x + (dx : ℚ), p.y + (dy : ℚ)⟩ ∧
      dx.natAbs ≤ sw / 2 ∧ dy.natAbs ≤ sw / 2 ∧ 2 ∣ dx ∧ 2 ∣ dy := by
  rw [trackSpeckle]
  by_cases h : templateOut curr ⌊p.x⌋ ⌊p.y⌋ ((bs / 2 : ℕ) : ℤ)
  · refine ⟨0, 0, ?_, by simp, by simp, ⟨0, rfl⟩, ⟨0, rfl⟩⟩
    rw [if_pos h]
    rcases p with ⟨x, y⟩
    simp
  · rw [if_neg h]
    set best := bestOffset prev curr bs ⌊p.x⌋ ⌊p.y⌋ ((bs / 2 : ℕ) : ℤ) (sw / 2) with hbest
    have h2 : 2 ∣ sw / 2 := by omega
    have hQ : best.1.natAbs ≤ sw / 2 ∧ best.2.natAbs ≤ sw / 2 ∧ 2 ∣ best.1 ∧ 2 ∣ best.2 := by
      rw [hbest, bestOffset]
      refine foldl_trackStep_fst_inv prev curr bs ⌊p.x⌋ ⌊p.y⌋ ((bs / 2 : ℕ) : ℤ)
        (fun b => b.1.natAbs ≤ sw / 2 ∧ b.2.natAbs ≤ sw / 2 ∧ 2 ∣ b.1 ∧ 2 ∣ b.2)
        (scanPairs (sw / 2)) ((0, 0), none) (by simp) ?_
      intro o ho
      obtain ⟨h1, h2'⟩ := mem_scanPairs ho
      obtain ⟨ha1, hb1⟩ := mem_searchOffsets h1
      obtain ⟨ha2, hb2⟩ := mem_searchOffsets h2'
      exact ⟨ha2, ha1, hb2 h2, hb1 h2⟩
    exact ⟨best.1, best.2, rfl, hQ.1, hQ.2.1, hQ.2.2.1, hQ.2.2.2⟩

/-- C10, witness for `trackSpeckle_displacement` at the frame center of
a 600×450 raster with the default parameters 14/24. -/
theorem trackSpeckle_displacement_witness :
    4 ∣ 24 ∧
    ∃ dx dy : ℤ,
      trackSpeckle rasterDemo rasterDemo ⟨300, 225⟩ 14 24 =
        ⟨(300 : ℚ) + (dx : ℚ), (225 : ℚ) + (dy : ℚ)⟩ ∧
      dx.natAbs ≤ 24 / 2 ∧ dy.natAbs ≤ 24 / 2 ∧ 2 ∣ dx ∧ 2 ∣ dy :=
  ⟨by norm_num,
   trackSpeckle_displacement rasterDemo rasterDemo ⟨300, 225⟩ 14 24 (by norm_num)⟩

set_option maxRecDepth 200000 in
/-- C3, counterexample: on identical uniform rasters (every pixel 0,
20×20) with the App's parameters `blockSize = 14`, `searchWindow = 28`,
the template block at `(10, 10)` lies inside the bounds, yet
`trackSpeckle` moves the point to `(8, 8)`: SAD is 0 at EVERY in-bounds
offset and the strict `sad < minSAD` tie-break keeps the FIRST scanned
in-bounds offset `(dy, dx) = (-2, -2)` — the scan starts at
`-halfSearch`, not at the zero offset, so the claim's tie-break
reasoning fails. -/
theorem trackSpeckle_identity_cex :
    trackSpeckle uniformRaster uniformRaster ⟨10, 10⟩ 14 28 = ⟨8, 8⟩ ∧
    trackSpeckle uniformRaster uniformRaster ⟨10, 10⟩ 14 28 ≠ ⟨10, 10⟩ := by
  have hb : bestOffset uniformRaster uniformRaster 14 10 10 7 14 = (-2, -2) := by decide
  have ht : ¬ templateOut uniformRaster 10 10 7 := by decide
  constructor <;>
  · rw [trackSpeckle]
    norm_num [ht, hb, Vec2.mk.injEq]

/-- C3, amended: on identical rasters, with a template block inside the
bounds and even parameters (`2 ∣ blockSize`, `4 ∣ searchWindow`, as at
every call site), `trackSpeckle` returns the point unchanged PROVIDED
the zero offset is the only in-bounds scanned offset whose candidate
block exactly matches the template (SAD = 0): SAD is 0 at the zero
offset, but ties favor the first-scanned offset of the `dy`-outer /
`dx`-inner scan starting at `-halfSearch`, which is not the zero offset,
so an earlier exact match (e.g. on a uniform raster) displaces the
point. -/
theorem trackSpeckle_identical_unique (r : Raster) (p : Vec2) (bs sw : ℕ) (px py : ℤ)
    (hpx : px = ⌊p.x⌋) (hpy : py = ⌊p.y⌋) (hbs : 2 ∣ bs) (hsw : 4 ∣ sw)
    (hin : ¬ templateOut r px py ((bs / 2 : ℕ) : ℤ))
    (huniq : ∀ o ∈ scanPairs (sw / 2), o ≠ (0, 0) →
      ¬ candidateOut r bs (px + o.2 - ((bs / 2 : ℕ) : ℤ)) (py + o.1 - ((bs / 2 : ℕ) : ℤ)) →
      sadAt r r bs (px - ((bs / 2 : ℕ) : ℤ)) (py - ((bs / 2 : ℕ) : ℤ))
        (px + o.2 - ((bs / 2 : ℕ) : ℤ)) (py + o.1 - ((bs / 2 : ℕ) : ℤ)) ≠ 0) :
    trackSpeckle r r p bs sw = p := by
  subst hpx
  subst hpy
  rw [trackSpeckle, if_neg hin]
  have hzero : ¬ candidateOut r bs (⌊p.x⌋ - ((bs / 2 : ℕ) : ℤ)) (⌊p.y⌋ - ((bs / 2 : ℕ) : ℤ)) := by
    rw [templateOut] at hin
    rw [candidateOut]
    push_neg at hin ⊢
    omega
  have hbest : bestOffset r r bs ⌊p.x⌋ ⌊p.y⌋ ((bs / 2 : ℕ) : ℤ) (sw / 2) = ((0, 0) : ℤ × ℤ) := by
    rw [bestOffset, foldl_trackStep_unique_zero r bs ⌊p.x⌋ ⌊p.y⌋ ((bs / 2 : ℕ) : ℤ) hzero
      (sadAt_self r bs _ _) (scanPairs (sw / 2)) (zero_mem_scanPairs _ (by omega)) huniq
      (0, 0) none (Or.inl rfl)]
  rw [hbest]
  rcases p with ⟨x, y⟩
  simp

/-- C3, witness for `trackSpeckle_identical_unique`: on the 8×8 raster
with pairwise-distinct pixels, the block at `(4, 4)` matches only
itself, and tracking between two copies of that raster keeps the point
fixed. -/
theorem trackSpeckle_identical_unique_witness :
    (2 ∣ 2) ∧ (4 ∣ 4) ∧
    (¬ templateOut gradRaster 4 4 ((2 / 2 : ℕ) : ℤ)) ∧
    trackSpeckle gradRaster gradRaster ⟨4, 4⟩ 2 4 = ⟨4, 4⟩ :=
  ⟨⟨1, rfl⟩, ⟨1, rfl⟩, by decide,
   trackSpeckle_identical_unique gradRaster ⟨4, 4⟩ 2 4 4 4
     (by norm_num) (by norm_num) ⟨1, rfl⟩ ⟨1, rfl⟩ (by decide) (by decide)⟩

/-- The square of the spec's area test, in its reference order. -/
def squarePoints : List Vec2 := [⟨100, 100⟩, ⟨200, 100⟩, ⟨200, 200⟩, ⟨100, 200⟩]

/-- C7: `calculateArea` of the square `(100,100), (200,100), (200,200),
(100,200)` is exactly 10000 for EVERY input order (each of the 24
permutations is enumerated; the centroid-angle sort normalises the
order), and every point list with fewer than 3 points has area 0. -/
theorem calculateArea_square :
    (∀ l : List Vec2, l.Perm squarePoints → calculateArea l = 10000) ∧
    (∀ l : List Vec2, l.length < 3 → calculateArea l = 0) := by
  constructor
  · intro l hp
    have hlen : l.length = squarePoints.length := hp.length_eq
    rcases l with _ | ⟨a, _ | ⟨b, _ | ⟨c, _ | ⟨d, _ | ⟨e, t⟩⟩⟩⟩⟩ <;>
      simp only [squarePoints, List.length_cons, List.length_nil] at hlen <;> try omega
    clear hlen
    have ha : a ∈ squarePoints := hp.subset (by simp)
    replace hp := (List.perm_cons a).mp (hp.trans (List.perm_cons_erase ha))
    simp only [squarePoints, List.mem_cons, List.not_mem_nil, or_false] at ha
    rcases ha with rfl | rfl | rfl | rfl <;>
    · norm_num [squarePoints, List.erase_cons, Vec2.mk.injEq] at hp
      have hb : b ∈ _ := hp.subset (List.mem_cons_self b _)
      replace hp := (List.perm_cons b).mp (hp.trans (List.perm_cons_erase hb))
      simp only [List.mem_cons, List.not_mem_nil, or_false] at hb
      rcases hb with rfl | rfl | rfl <;>
      · norm_num [List.erase_cons, Vec2.mk.injEq] at hp
        have hc : c ∈ _ := hp.subset (List.mem_cons_self c _)
        replace hp := (List.perm_cons c).mp (hp.trans (List.perm_cons_erase hc))
        simp only [List.mem_cons, List.not_mem_nil, or_false] at hc
        rcases hc with rfl | rfl <;>
        · norm_num [List.erase_cons, Vec2.mk.injEq] at hp
          subst hp
          norm_num [calculateArea, sortByAngle, insertByAngle, angKeyLt, angLt, atan2Sector,
            List.foldr, List.foldl, List.range_succ, List.getD, abs]
  · intro l h
    rw [calculateArea, if_pos h]

/-- C7, witness for `calculateArea_square`: a transposed order of the
square, and a single-point list. -/
theorem calculateArea_square_witness :
    ([⟨200, 100⟩, ⟨100, 100⟩, ⟨200, 200⟩, ⟨100, 200⟩] : List Vec2).Perm squarePoints ∧
    calculateArea [⟨200, 100⟩, ⟨100, 100⟩, ⟨200, 200⟩, ⟨100, 200⟩] = 10000 ∧
    ([⟨1, 2⟩] : List Vec2).length < 3 ∧ calculateArea [⟨1, 2⟩] = 0 := by
  have hperm : ([⟨200, 100⟩, ⟨100, 100⟩, ⟨200, 200⟩, ⟨100, 200⟩] : List Vec2).Perm
      squarePoints := by
    rw [squarePoints]
    exact List.Perm.swap _ _ _
  exact ⟨hperm, calculateArea_square.1 _ hperm, by norm_num,
    calculateArea_square.2 _ (by norm_num)⟩
